import Mathlib

/-!
Verification development for the `rusty-daw-core` parameter-automation and
timing core (`src/parameter.rs`, `src/time.rs`).

Modelling conventions:
* Rust `i64` / `i32` / `usize` values are modelled as `Int` / `Nat`; where the
  source relies on two's-complement wrapping the wrap is made explicit with
  `% 2 ^ 64` recentred to the signed range.
* Rust `f32` / `f64` values are modelled by their exact rational payloads;
  every arithmetic operation whose result the source stores back into a float
  (the casts, additions, subtractions, multiplications and divisions of the
  `ParamI32` mapping and of the time conversions) is followed by `f32_round`
  / `f64_round`, the IEEE-754 round-to-nearest, ties-to-even rounding to 24-
  resp. 53-bit precision (overflow to infinity is not modelled; no claim
  reaches magnitudes near `2^128`).  The transcendental primitives (`powf`,
  `log2`) of the `ParamF32`/`ParamF64` gradient math and the external
  smoothing-speed computation are abstracted into a `FloatOps` record that
  those definitions take as a parameter, with their outputs treated as opaque
  float payloads.
* `f.round()` is modelled by `rust_round` (round half away from zero, as in
  IEEE `roundTiesAway` used by Rust's `round`), and the saturating `as iN`
  casts by `i64_sat` / `i32_sat`.
* Code of the repository that is not under `src/` (the `Smooth` ramp engine,
  the atomic cells, the decibel conversions) is modelled from the spec; each
  such definition is marked `Modelled from the spec:` in its doc comment.
-/

set_option autoImplicit false

namespace RustyDawCore

/-- Rust's `f32::clamp`/`f64::clamp` restricted to the case `lo ≤ hi`
(the only way the source calls it): `max lo (min x hi)`. -/
def qclamp (x lo hi : ℚ) : ℚ :=
  max lo (min x hi)

/-- Rust's `i32::clamp` restricted to the case `lo ≤ hi`. -/
def iclamp (x lo hi : Int) : Int :=
  max lo (min x hi)

/-- Rust's `f32::round`/`f64::round`: round to nearest integer, ties away
from zero, modelled on exact rationals. -/
def rust_round (x : ℚ) : Int :=
  if 0 ≤ x then ⌊x + 1 / 2⌋ else -⌊-x + 1 / 2⌋

/-- Two's-complement wrapping of an unbounded integer into the signed 64-bit
range, modelling overflow of Rust `i64` multiplication/addition in release
builds (debug builds panic instead; either way the mathematical product is
not returned once it leaves the `i64` range). -/
def i64_wrap (x : Int) : Int :=
  (x + 2 ^ 63) % 2 ^ 64 - 2 ^ 63

/-- Rust's saturating float-to-`i64` cast (`as i64`) applied to an
already-integral value. -/
def i64_sat (x : Int) : Int :=
  max (-(2 ^ 63)) (min (2 ^ 63 - 1) x)

/-- Rust's saturating float-to-`i32` cast (`as i32`) applied to an
already-integral value. -/
def i32_sat (x : Int) : Int :=
  max (-(2 ^ 31)) (min (2 ^ 31 - 1) x)

/-- Rust's `f64 as usize` cast (truncate toward zero, saturating at 0 below),
used by `SuperSampleTime::from_sample_time` to dispatch on the sample rate.
Saturation at `usize::MAX` is omitted: it cannot change which branch of the
rate dispatch is taken, and the wildcard branch ignores the cast value. -/
def f64_to_usize (x : ℚ) : Int :=
  max 0 ⌊x⌋

/-- Round a rational to the nearest integer, ties to even — the rounding in
effect for every IEEE-754 arithmetic result. -/
def round_even (m : ℚ) : Int :=
  let f := ⌊m⌋
  let frac := m - f
  if frac < 1 / 2 then f
  else if 1 / 2 < frac then f + 1
  else if f % 2 = 0 then f else f + 1

/-- IEEE-754 round-to-nearest (ties to even) at `prec` mantissa bits with
minimum exponent `emin`: the value is scaled so that its mantissa occupies
`prec` bits (or the fixed subnormal scale below `2 ^ emin`), rounded to an
integer, and scaled back.  Overflow to infinity is not modelled: no claim in
this development reaches magnitudes near the float range limit. -/
def fp_round (prec : ℕ) (emin : Int) (x : ℚ) : ℚ :=
  if x = 0 then 0
  else
    let e := max (Int.log 2 |x|) emin
    let scale := (2 : ℚ) ^ (e - ((prec : Int) - 1))
    (round_even (x / scale) : ℚ) * scale

/-- Rounding of an exact rational to the nearest `f32` (24-bit mantissa,
`emin = -126`). -/
def f32_round (x : ℚ) : ℚ :=
  fp_round 24 (-126) x

/-- Rounding of an exact rational to the nearest `f64` (53-bit mantissa,
`emin = -1022`). -/
def f64_round (x : ℚ) : ℚ :=
  fp_round 53 (-1022) x

/-- Rust's `as f32` cast of an `i32` (round to nearest `f32`). -/
def as_f32 (n : Int) : ℚ :=
  f32_round (n : ℚ)

/-- Rust's `as f64` cast of an `i64` (round to nearest `f64`). -/
def as_f64 (n : Int) : ℚ :=
  f64_round (n : ℚ)

/-! ## Time units (`src/time.rs`)

`SampleTime`, `SuperSampleTime` and `MusicalTime` are newtypes over `i64`;
`Frames` and `SuperFrames` over `usize`.  They are modelled directly by their
payloads (`Int` resp. `Nat`); a `SampleRate` is its `f64` payload (`ℚ`). -/

namespace MusicalTime

/-- `MusicalTime::from_beats`: `beats * 28_224_000` (`i64` multiply). -/
def from_beats (beats : Int) : Int :=
  i64_wrap (beats * 28224000)

/-- `MusicalTime::from_half_beats`: `half_beats * (28_224_000 / 2)`. -/
def from_half_beats (half_beats : Int) : Int :=
  i64_wrap (half_beats * (28224000 / 2))

/-- `MusicalTime::from_quarter_beats`: `quarter_beats * (28_224_000 / 4)`. -/
def from_quarter_beats (quarter_beats : Int) : Int :=
  i64_wrap (quarter_beats * (28224000 / 4))

/-- `MusicalTime::from_32nd_beats`: `thirty_second_beats * (28_224_000 / 32)`. -/
def from_32nd_beats (thirty_second_beats : Int) : Int :=
  i64_wrap (thirty_second_beats * (28224000 / 32))

/-- `MusicalTime::from_64th_beats` as written in the source: it multiplies by
`28_224_000 / 32` (not `/ 64`), although its doc comment says the argument is
in units of 1/64 beats. -/
def from_64th_beats (sixty_fourth_beats : Int) : Int :=
  i64_wrap (sixty_fourth_beats * (28224000 / 32))

end MusicalTime

namespace SuperSampleTime

/-- `SuperSampleTime::from_sample_time`: dispatches on `sample_rate.0 as usize`;
the eight common rates use exact `i64` integer arithmetic, any other rate goes
through the `f64` ratio with `round()` (each `f64` operation rounding via
`f64_round`). -/
def from_sample_time (sample_time : Int) (sample_rate : ℚ) : Int :=
  let key := f64_to_usize sample_rate
  if key = 44100 then i64_wrap (sample_time * (28224000 / 44100))
  else if key = 48000 then i64_wrap (sample_time * (28224000 / 48000))
  else if key = 88200 then i64_wrap (sample_time * (28224000 / 88200))
  else if key = 96000 then i64_wrap (sample_time * (28224000 / 96000))
  else if key = 176400 then i64_wrap (sample_time * (28224000 / 176400))
  else if key = 192000 then i64_wrap (sample_time * (28224000 / 192000))
  else if key = 22050 then i64_wrap (sample_time * (28224000 / 22050))
  else if key = 24000 then i64_wrap (sample_time * (28224000 / 24000))
  else i64_sat (rust_round (f64_round (as_f64 sample_time * f64_round (28224000 / sample_rate))))

/-- `SuperSampleTime::to_sample_time`:
`(self.0 as f64 * sample_rate.0 / 28_224_000.0).round() as i64` — the
`i64 → f64` cast, the multiplication and the division each round to the
nearest `f64`. -/
def to_sample_time (super_sample_time : Int) (sample_rate : ℚ) : Int :=
  i64_sat (rust_round (f64_round (f64_round (as_f64 super_sample_time * sample_rate) / 28224000)))

end SuperSampleTime

namespace SampleTime

/-- `SampleTime::to_super_sample`: delegates to
`SuperSampleTime::from_sample_time`. -/
def to_super_sample (sample_time : Int) (sample_rate : ℚ) : Int :=
  SuperSampleTime.from_sample_time sample_time sample_rate

end SampleTime

namespace Frames

/-- `impl Sub<Frames> for Frames` / `SubAssign`: `self.0 - rhs.0` on `usize`.
Underflow (subtrahend larger than minuend) panics in debug builds and wraps in
release builds; the operation only has a defined duration meaning when
`rhs ≤ self`, so it is modelled as a checked subtraction returning `none` in
the underflow case. -/
def sub (a b : Nat) : Option Nat :=
  if b ≤ a then some (a - b) else none

end Frames

namespace SuperFrames

/-- `impl Sub<SuperFrames> for SuperFrames` / `SubAssign`: `self.0 - rhs.0`
on `usize`, checked as in `Frames.sub`. -/
def sub (a b : Nat) : Option Nat :=
  if b ≤ a then some (a - b) else none

end SuperFrames

/-! ## Parameters (`src/parameter.rs`)

The `f32`/`f64` parameter code calls three kinds of primitives whose code is
not part of this repository's `src/`: `powf`/`log2` (Rust std floats), the
raw dB→amplitude conversion (the `decibel` module), and the smoothing-speed
computation (the `smooth` module).  They are abstracted into a `FloatOps`
record passed to every definition; the claims either hold for every
interpretation of these primitives or assume only their characteristic
order/range properties. -/

/-- The abstract float primitives external to `src/`: `powf x y` models
`x.powf(y)`, `log2` models `f32::log2`, `dbRaw` the raw (un-clamped)
dB→amplitude conversion, and `speed` the smoothing-coefficient computation
`(a, b)` from a sample rate and a time constant. -/
structure FloatOps where
  powf : ℚ → ℚ → ℚ
  log2 : ℚ → ℚ
  dbRaw : ℚ → ℚ
  speed : ℚ → ℚ → ℚ × ℚ

/-- A concrete interpretation of the abstract primitives used to instantiate
witnesses: `powf x y = x` satisfies the `[0,1]`-range property of the real
`powf` on that interval, and `log2 = id` is strictly monotone like the real
`log2` on positives. -/
def idOps : FloatOps :=
  ⟨fun x _ => x, id, id, fun _ _ => (0, 0)⟩

/-- `Gradient` (`parameter.rs`): the normalized↔value mapping curve. -/
inductive Gradient where
  | linear
  | power (exponent : ℚ)
  | exponential
deriving DecidableEq

/-- `Unit` (`parameter.rs`): how the displayed value relates to the DSP
value. -/
inductive Unit where
  | generic
  | decibels
deriving DecidableEq

/-- Modelled from the spec: `db_to_coeff_clamped_neg_90_db_f32` lives in the
`decibel` module, which is not under `src/`.  Per the spec it clamps any dB
value `≤ -90` to amplitude `0.0` exactly and otherwise applies the
deterministic dB→amplitude conversion (abstracted as `ops.dbRaw`). -/
def db_to_coeff_clamped_neg_90_db_f32 (ops : FloatOps) (db : ℚ) : ℚ :=
  if db ≤ -90 then 0 else ops.dbRaw db

/-- `Unit::unit_to_dsp_f32`. -/
def Unit.unit_to_dsp_f32 (ops : FloatOps) (u : Unit) (value : ℚ) : ℚ :=
  match u with
  | .decibels => db_to_coeff_clamped_neg_90_db_f32 ops value
  | _ => value

/-- `normalized_to_value_f32` (`parameter.rs`): clamp the normalized value to
`[0,1]`, then map through the gradient curve onto `[min, max]`; the
`Exponential` branch returns `min`/`max` exactly at the endpoints. -/
def normalized_to_value_f32 (ops : FloatOps) (normalized mn mx : ℚ)
    (gradient : Gradient) : ℚ :=
  let normalized := qclamp normalized 0 1
  let map := fun (x : ℚ) => x * (mx - mn) + mn
  match gradient with
  | .linear => map normalized
  | .power exponent => map (ops.powf normalized exponent)
  | .exponential =>
    if normalized = 0 then mn
    else if normalized = 1 then mx
    else
      let minl := ops.log2 mn
      let range := ops.log2 mx - minl
      ops.powf 2 (normalized * range + minl)

/-- `value_to_normalized_f32` (`parameter.rs`): saturates to `0` below `min`
and to `1` above `max`, otherwise inverts the gradient curve. -/
def value_to_normalized_f32 (ops : FloatOps) (value mn mx : ℚ)
    (gradient : Gradient) : ℚ :=
  if value ≤ mn then 0
  else if mx ≤ value then 1
  else
    let unmap := fun (x : ℚ) => (x - mn) / (mx - mn)
    match gradient with
    | .linear => unmap value
    | .power exponent => ops.powf (unmap value) (1 / exponent)
    | .exponential =>
      let minl := ops.log2 mn
      let range := ops.log2 mx - minl
      (ops.log2 value - minl) / range

/-- `normalized_to_value_f64` (`parameter.rs`): identical to the `f32`
version up to float width (both are exact over `ℚ` here). -/
def normalized_to_value_f64 (ops : FloatOps) (normalized mn mx : ℚ)
    (gradient : Gradient) : ℚ :=
  let normalized := qclamp normalized 0 1
  let map := fun (x : ℚ) => x * (mx - mn) + mn
  match gradient with
  | .linear => map normalized
  | .power exponent => map (ops.powf normalized exponent)
  | .exponential =>
    if normalized = 0 then mn
    else if normalized = 1 then mx
    else
      let minl := ops.log2 mn
      let range := ops.log2 mx - minl
      ops.powf 2 (normalized * range + minl)

/-- `value_to_normalized_f64` (`parameter.rs`): identical to the `f32`
version up to float width. -/
def value_to_normalized_f64 (ops : FloatOps) (value mn mx : ℚ)
    (gradient : Gradient) : ℚ :=
  if value ≤ mn then 0
  else if mx ≤ value then 1
  else
    let unmap := fun (x : ℚ) => (x - mn) / (mx - mn)
    match gradient with
    | .linear => unmap value
    | .power exponent => ops.powf (unmap value) (1 / exponent)
    | .exponential =>
      let minl := ops.log2 mn
      let range := ops.log2 mx - minl
      (ops.log2 value - minl) / range

/-- Modelled from the spec: the `Smooth` ramp engine (the `smooth` module is
not under `src/`).  Per the spec's collaborator contract it is a one-pole
low-pass ramp holding the current target (`input`), a "still actively
smoothing" flag (`status`), the per-sample filter coefficients (`a`, `b`)
configured by `set_speed`, and the current ramp position (`last`). -/
structure Smooth where
  input : ℚ
  status : Bool
  a : ℚ
  b : ℚ
  last : ℚ

/-- Modelled from the spec: `Smooth::new(initial_value)` starts settled at
the initial value, with no ramp. -/
def Smooth.new (v : ℚ) : Smooth :=
  ⟨v, false, 0, 0, v⟩

/-- Modelled from the spec: `Smooth::set(target)` starts a ramp toward the
new target; the ramp position is untouched. -/
def Smooth.set (s : Smooth) (target : ℚ) : Smooth :=
  { s with input := target, status := true }

/-- Modelled from the spec: `Smooth::reset(value)` jumps directly to the
value with no ramp. -/
def Smooth.reset (s : Smooth) (v : ℚ) : Smooth :=
  { s with input := v, last := v, status := false }

/-- Modelled from the spec: `Smooth::set_speed(sample_rate, smooth_secs)`
reconfigures the per-sample decay coefficients for the configured time
constant (the formula, external to `src/`, is abstracted as `ops.speed`)
without altering the target or the in-flight ramp position. -/
def Smooth.set_speed (ops : FloatOps) (s : Smooth) (sample_rate smooth_secs : ℚ) : Smooth :=
  { s with a := (ops.speed sample_rate smooth_secs).1,
           b := (ops.speed sample_rate smooth_secs).2 }

/-- Modelled from the spec: `Smooth::process(frames)` advances the one-pole
ramp by `frames` samples toward the target. -/
def Smooth.process (s : Smooth) (frames : Nat) : Smooth :=
  { s with last := (fun x => x * s.a + s.input * s.b)^[frames] s.last }

/-- Modelled from the spec: `Smooth::update_status()` refreshes the "still
smoothing" flag from the ramp position. -/
def Smooth.update_status (s : Smooth) : Smooth :=
  { s with status := s.last != s.input }

/-- `ParamF32` (`parameter.rs`).  The shared atomic cell is modelled by the
`shared_normalized` field: the parameter and its handle reference the same
cell, so handle operations below act on the same state record and touch only
this field.  The claims settled here concern single-threaded call sequences,
for which a plain field is an exact model of the relaxed atomic cell. -/
structure ParamF32 where
  min : ℚ
  max : ℚ
  gradient : Gradient
  unit : Unit
  shared_normalized : ℚ
  normalized : ℚ
  value : ℚ
  smoothed : Smooth
  smooth_secs : ℚ

/-- `ParamF32::from_value` (the parameter half of the returned pair; the
handle half shares `shared_normalized` and copies of the bounds). -/
def ParamF32.from_value (ops : FloatOps) (value mn mx : ℚ) (gradient : Gradient)
    (unit : Unit) (smooth_secs sample_rate : ℚ) : ParamF32 :=
  let normalized := value_to_normalized_f32 ops value mn mx gradient
  let handle_value := normalized_to_value_f32 ops normalized mn mx gradient
  let rt_value := match unit with
    | .decibels => db_to_coeff_clamped_neg_90_db_f32 ops handle_value
    | _ => handle_value
  { min := mn, max := mx, gradient := gradient, unit := unit,
    shared_normalized := normalized, normalized := normalized, value := rt_value,
    smoothed := Smooth.set_speed ops (Smooth.new rt_value) sample_rate smooth_secs,
    smooth_secs := smooth_secs }

/-- `ParamF32::from_normalized`. -/
def ParamF32.from_normalized (ops : FloatOps) (normalized mn mx : ℚ)
    (gradient : Gradient) (unit : Unit) (smooth_secs sample_rate : ℚ) : ParamF32 :=
  let normalized := qclamp normalized 0 1
  let handle_value := normalized_to_value_f32 ops normalized mn mx gradient
  let rt_value := match unit with
    | .decibels => db_to_coeff_clamped_neg_90_db_f32 ops handle_value
    | _ => handle_value
  { min := mn, max := mx, gradient := gradient, unit := unit,
    shared_normalized := normalized, normalized := normalized, value := rt_value,
    smoothed := Smooth.set_speed ops (Smooth.new rt_value) sample_rate smooth_secs,
    smooth_secs := smooth_secs }

/-- `ParamF32::set_value`: guarded by `self.value != value`; recomputes the
normalized and DSP values, publishes to the shared cell and pushes a new
smoother target. -/
def ParamF32.set_value (ops : FloatOps) (s : ParamF32) (value : ℚ) : ParamF32 :=
  if s.value = value then s
  else
    let normalized := value_to_normalized_f32 ops value s.min s.max s.gradient
    let v := normalized_to_value_f32 ops normalized s.min s.max s.gradient
    let value := match s.unit with
      | .decibels => db_to_coeff_clamped_neg_90_db_f32 ops v
      | _ => v
    { s with normalized := normalized, shared_normalized := normalized,
             value := value, smoothed := s.smoothed.set value }

/-- `ParamF32::set_normalized`: guarded by `self.normalized != normalized`;
clamps the input to `[0,1]` before storing. -/
def ParamF32.set_normalized (ops : FloatOps) (s : ParamF32) (normalized : ℚ) : ParamF32 :=
  if s.normalized = normalized then s
  else
    let normalized := qclamp normalized 0 1
    let v := normalized_to_value_f32 ops normalized s.min s.max s.gradient
    let value := match s.unit with
      | .decibels => db_to_coeff_clamped_neg_90_db_f32 ops v
      | _ => v
    { s with normalized := normalized, shared_normalized := normalized,
             value := value, smoothed := s.smoothed.set value }

/-- `ParamF32::reset_from_value`: like `set_value` but unguarded and with a
hard smoother reset (no ramp). -/
def ParamF32.reset_from_value (ops : FloatOps) (s : ParamF32) (value : ℚ) : ParamF32 :=
  let normalized := value_to_normalized_f32 ops value s.min s.max s.gradient
  let v := normalized_to_value_f32 ops normalized s.min s.max s.gradient
  let value := match s.unit with
    | .decibels => db_to_coeff_clamped_neg_90_db_f32 ops v
    | _ => v
  { s with normalized := normalized, shared_normalized := normalized,
           value := value, smoothed := s.smoothed.reset value }

/-- `ParamF32::reset_from_normalized`. -/
def ParamF32.reset_from_normalized (ops : FloatOps) (s : ParamF32) (normalized : ℚ) : ParamF32 :=
  let normalized := qclamp normalized 0 1
  let v := normalized_to_value_f32 ops normalized s.min s.max s.gradient
  let value := match s.unit with
    | .decibels => db_to_coeff_clamped_neg_90_db_f32 ops v
    | _ => v
  { s with normalized := normalized, shared_normalized := normalized,
           value := value, smoothed := s.smoothed.reset value }

/-- `ParamF32::smoothed` (named `smoothed_step` here because the structure
field already carries the source's `smoothed` name): adopt a changed shared
value as the new smoother target, then advance the ramp and refresh the
status flag.  The returned buffer view is not modelled; only the state
transition is. -/
def ParamF32.smoothed_step (ops : FloatOps) (s : ParamF32) (frames : Nat) : ParamF32 :=
  let new_normalized := s.shared_normalized
  let s1 :=
    if s.normalized = new_normalized then s
    else
      let v := normalized_to_value_f32 ops new_normalized s.min s.max s.gradient
      let value := match s.unit with
        | .decibels => db_to_coeff_clamped_neg_90_db_f32 ops v
        | _ => v
      { s with normalized := new_normalized, value := value,
               smoothed := s.smoothed.set value }
  { s1 with smoothed := (s1.smoothed.process frames).update_status }

/-- `ParamF32Handle::normalized`: reads the shared cell. -/
def ParamF32Handle.normalized (s : ParamF32) : ℚ :=
  s.shared_normalized

/-- `ParamF32Handle::set_normalized`: clamps to `[0,1]` and writes the
shared cell (the only state the handle can mutate). -/
def ParamF32Handle.set_normalized (s : ParamF32) (normalized : ℚ) : ParamF32 :=
  { s with shared_normalized := qclamp normalized 0 1 }

/-- `ParamF32Handle::set_value`: converts to normalized and delegates to
`ParamF32Handle::set_normalized`. -/
def ParamF32Handle.set_value (ops : FloatOps) (s : ParamF32) (value : ℚ) : ParamF32 :=
  ParamF32Handle.set_normalized s (value_to_normalized_f32 ops value s.min s.max s.gradient)

/-- `ParamI32` (`parameter.rs`): integer parameter without smoothing;
`shared` models the `Arc<AtomicI32>` cell. -/
structure ParamI32 where
  min : Int
  max : Int
  shared : Int
deriving DecidableEq

/-- `ParamI32::from_value`: clamps the initial value into `[min, max]`. -/
def ParamI32.from_value (value mn mx : Int) : ParamI32 :=
  { min := mn, max := mx, shared := iclamp value mn mx }

/-- `ParamI32::from_normalized`: clamps the normalized input to `[0,1]`,
denormalizes with the *minimum* bound as affine offset (`+ min_value`),
rounds to nearest, and delegates to `from_value`.  The `i32 → f32` casts, the
bound subtraction, the multiplication and the addition are each `f32`
operations rounding via `f32_round`. -/
def ParamI32.from_normalized (normalized : ℚ) (mn mx : Int) : ParamI32 :=
  let normalized := qclamp normalized 0 1
  let value := i32_sat (rust_round
    (f32_round (f32_round (normalized * f32_round (as_f32 mx - as_f32 mn)) + as_f32 mn)))
  ParamI32.from_value value mn mx

/-- `ParamI32::set_value`: clamps into `[min, max]` and stores. -/
def ParamI32.set_value (s : ParamI32) (value : Int) : ParamI32 :=
  { s with shared := iclamp value s.min s.max }

/-- `ParamI32::set_normalized` as written in the source: the affine offset
added after scaling is `self.max as f32`, not `self.min as f32`.  Each `f32`
operation rounds via `f32_round`. -/
def ParamI32.set_normalized (s : ParamI32) (normalized : ℚ) : ParamI32 :=
  let normalized := qclamp normalized 0 1
  let value := i32_sat (rust_round
    (f32_round (f32_round (normalized * f32_round (as_f32 s.max - as_f32 s.min)) + as_f32 s.max)))
  s.set_value value

/-- `ParamI32::value`: reads the shared cell. -/
def ParamI32.value (s : ParamI32) : Int :=
  s.shared

/-- `ParamI32::value_to_normalized`: clamps, then `(value - min) / (max - min)`
in `f32` arithmetic, each operation rounding via `f32_round`. -/
def ParamI32.value_to_normalized (s : ParamI32) (value : Int) : ℚ :=
  let value := iclamp value s.min s.max
  f32_round (as_f32 (value - s.min) / f32_round (as_f32 s.max - as_f32 s.min))

/-- `ParamI32::normalized_to_value` as written in the source: like
`set_normalized`, it adds `self.max as f32` as the affine offset (and does
not clamp the result into `[min, max]`). -/
def ParamI32.normalized_to_value (s : ParamI32) (normalized : ℚ) : Int :=
  let normalized := qclamp normalized 0 1
  i32_sat (rust_round
    (f32_round (f32_round (normalized * f32_round (as_f32 s.max - as_f32 s.min)) + as_f32 s.max)))

/-- `ParamI32Handle::set_normalized`: textually identical to
`ParamI32::set_normalized` (including the `+ self.max` offset); the handle
shares the cell, so it is modelled on the same state record. -/
def ParamI32Handle.set_normalized (s : ParamI32) (normalized : ℚ) : ParamI32 :=
  let normalized := qclamp normalized 0 1
  let value := i32_sat (rust_round
    (f32_round (f32_round (normalized * f32_round (as_f32 s.max - as_f32 s.min)) + as_f32 s.max)))
  s.set_value value

/-- The invariant of claim C5: the cached DSP value is `unit_to_dsp` of
`normalized_to_value` of the cached normalized value, with the parameter's
own bounds and gradient. -/
def paramF32_consistent (ops : FloatOps) (s : ParamF32) : Prop :=
  s.value = Unit.unit_to_dsp_f32 ops s.unit
    (normalized_to_value_f32 ops s.normalized s.min s.max s.gradient)

/-- The invariant of claim C9: the shared normalized cell holds a value in
`[0, 1]`. -/
def shared_in_unit (s : ParamF32) : Prop :=
  0 ≤ s.shared_normalized ∧ s.shared_normalized ≤ 1

/-! ### Helper lemmas about the numeric primitives -/

lemma i64_wrap_eq_self {x : Int} (h1 : -(2 ^ 63) ≤ x) (h2 : x < 2 ^ 63) :
    i64_wrap x = x := by
  unfold i64_wrap
  have h : (x + 2 ^ 63) % 2 ^ 64 = x + 2 ^ 63 :=
    Int.emod_eq_of_lt (by omega) (by omega)
  omega

lemma i64_sat_eq_self {x : Int} (h1 : -(2 ^ 63) ≤ x) (h2 : x ≤ 2 ^ 63 - 1) :
    i64_sat x = x := by
  unfold i64_sat
  omega

lemma i32_sat_eq_self {x : Int} (h1 : -(2 ^ 31) ≤ x) (h2 : x ≤ 2 ^ 31 - 1) :
    i32_sat x = x := by
  unfold i32_sat
  omega

lemma rust_round_intCast (n : Int) : rust_round (n : ℚ) = n := by
  unfold rust_round
  by_cases h : (0 : ℚ) ≤ (n : ℚ)
  · rw [if_pos h, add_comm, Int.floor_add_int]
    norm_num
  · rw [if_neg h]
    have : -(n : ℚ) + 1 / 2 = (1 : ℚ) / 2 + ((-n : Int) : ℚ) := by push_cast; ring
    rw [this, Int.floor_add_int]
    norm_num

lemma qclamp_eq_self {x lo hi : ℚ} (h1 : lo ≤ x) (h2 : x ≤ hi) :
    qclamp x lo hi = x := by
  unfold qclamp
  rw [min_eq_left h2, max_eq_right h1]

lemma round_even_intCast (k : Int) : round_even (k : ℚ) = k := by
  simp [round_even]

lemma fp_round_zero (prec : ℕ) (emin : Int) : fp_round prec emin 0 = 0 := by
  simp [fp_round]

lemma int_log2_eq {x : ℚ} {e : Int} (h1 : (2:ℚ) ^ e ≤ x) (h2 : x < (2:ℚ) ^ (e + 1)) :
    Int.log 2 x = e := by
  have hx : 0 < x := lt_of_lt_of_le (zpow_pos (by norm_num) e) h1
  have ha : e ≤ Int.log 2 x := by
    rw [← Int.zpow_le_iff_le_log (by norm_num) hx]
    exact_mod_cast h1
  have hb : Int.log 2 x < e + 1 := by
    rw [← Int.lt_zpow_iff_log_lt (by norm_num) hx]
    exact_mod_cast h2
  omega

/-- Evaluation form of `fp_round` once the binade of the input is known. -/
lemma fp_round_eq_of (prec : ℕ) (emin : Int) (x : ℚ) (e : Int)
    (hx : x ≠ 0) (h1 : (2:ℚ) ^ e ≤ |x|) (h2 : |x| < (2:ℚ) ^ (e + 1)) (he : emin ≤ e) :
    fp_round prec emin x =
      (round_even (x / (2:ℚ) ^ (e - ((prec : Int) - 1))) : ℚ) *
        (2:ℚ) ^ (e - ((prec : Int) - 1)) := by
  have hl : Int.log 2 |x| = e := int_log2_eq h1 h2
  simp only [fp_round, if_neg hx, hl, max_eq_left he]

/-- A dyadic rational whose mantissa fits in `prec` bits (and whose exponent
is above `emin`) is a fixed point of `fp_round`: the corresponding float
operation is exact. -/
lemma fp_round_dyadic (prec : ℕ) (emin : Int) (hprec : 0 < prec) (m t : Int)
    (hm : m.natAbs ≤ 2 ^ prec) (ht : emin ≤ t) :
    fp_round prec emin ((m : ℚ) * (2:ℚ) ^ t) = (m : ℚ) * (2:ℚ) ^ t := by
  rcases eq_or_ne m 0 with rfl | hm0
  · simp [fp_round]
  · set x : ℚ := (m : ℚ) * (2:ℚ) ^ t with hxdef
    have h2t : (0:ℚ) < (2:ℚ) ^ t := zpow_pos (by norm_num) t
    have hx0 : x ≠ 0 :=
      mul_ne_zero (Int.cast_ne_zero.mpr hm0) (ne_of_gt h2t)
    have hx0' : 0 < |x| := abs_pos.mpr hx0
    have hmq : (1:ℚ) ≤ (m.natAbs : ℚ) := by
      have h := Int.natAbs_pos.mpr hm0
      exact_mod_cast h
    have hcastabs : |(m : ℚ)| = (m.natAbs : ℚ) := by
      rw [Int.cast_natAbs, Int.cast_abs]
    have habs : |x| = (m.natAbs : ℚ) * (2:ℚ) ^ t := by
      rw [hxdef, abs_mul, abs_of_pos h2t, hcastabs]
    have h1 : (2:ℚ) ^ t ≤ |x| := by
      rw [habs]
      exact le_mul_of_one_le_left (le_of_lt h2t) hmq
    have hmq2 : (m.natAbs : ℚ) ≤ (2:ℚ) ^ (prec : Int) := by
      rw [zpow_natCast]
      exact_mod_cast hm
    have h2 : |x| ≤ (2:ℚ) ^ (t + (prec : Int)) := by
      rw [habs, add_comm, zpow_add₀ (two_ne_zero) _ t]
      exact mul_le_mul_of_nonneg_right hmq2 (le_of_lt h2t)
    have hge : t ≤ Int.log 2 |x| := by
      rw [← Int.zpow_le_iff_le_log (by norm_num) hx0']
      exact_mod_cast h1
    have hle : Int.log 2 |x| ≤ t + (prec : Int) := by
      have h2' : |x| < (2:ℚ) ^ (t + (prec : Int) + 1) :=
        lt_of_le_of_lt h2 (zpow_lt_zpow_right₀ (by norm_num) (by omega))
      have hlt : Int.log 2 |x| < t + (prec : Int) + 1 := by
        rw [← Int.lt_zpow_iff_log_lt (by norm_num) hx0']
        exact_mod_cast h2'
      omega
    set l := Int.log 2 |x| with hldef
    obtain ⟨j, hj⟩ : ∃ j : Int, x = (j : ℚ) * (2:ℚ) ^ (l - ((prec : Int) - 1)) := by
      rcases lt_or_eq_of_le hle with hlt | heq
      · refine ⟨m * 2 ^ (t - l + (prec : Int) - 1).toNat, ?_⟩
        have hnn : (0:Int) ≤ t - l + (prec : Int) - 1 := by omega
        rw [hxdef]
        push_cast
        rw [← zpow_natCast (2:ℚ) (t - l + (prec : Int) - 1).toNat,
          Int.toNat_of_nonneg hnn, mul_assoc,
          ← zpow_add₀ (two_ne_zero : (2:ℚ) ≠ 0),
          show (t - l + (prec : Int) - 1) + (l - ((prec : Int) - 1)) = t from by ring]
      · have hz := Int.zpow_log_le_self (b := 2) (by norm_num) hx0'
        rw [← hldef, heq] at hz
        have hz' : (2:ℚ) ^ (t + (prec : Int)) ≤ (m.natAbs : ℚ) * (2:ℚ) ^ t := by
          rw [← habs]
          exact_mod_cast hz
        have hnalow : (2:ℚ) ^ (prec : Int) ≤ (m.natAbs : ℚ) := by
          rw [add_comm, zpow_add₀ (two_ne_zero) _ t] at hz'
          exact le_of_mul_le_mul_right hz' h2t
        have hna : m.natAbs = 2 ^ prec := by
          have hlow : 2 ^ prec ≤ m.natAbs := by
            rw [zpow_natCast] at hnalow
            exact_mod_cast hnalow
          omega
        obtain ⟨m2, hm2⟩ : ∃ m2, m = 2 * m2 := by
          have hdvd : (2:ℕ) ∣ m.natAbs := by
            rw [hna]
            exact dvd_pow_self 2 (by omega)
          exact Int.dvd_natAbs.mp (by exact_mod_cast hdvd)
        refine ⟨m2, ?_⟩
        rw [hxdef, hm2, heq]
        push_cast
        rw [show t + (prec : Int) - ((prec : Int) - 1) = t + 1 from by ring,
          zpow_add_one₀ (two_ne_zero : (2:ℚ) ≠ 0)]
        ring
    have hsc : (2:ℚ) ^ (l - ((prec : Int) - 1)) ≠ 0 := zpow_ne_zero _ (two_ne_zero)
    have hdiv : x / (2:ℚ) ^ (l - ((prec : Int) - 1)) = (j : ℚ) := by
      rw [hj, mul_div_cancel_right₀ _ hsc]
    have hround := fp_round_eq_of prec emin x l hx0
      (by exact_mod_cast Int.zpow_log_le_self (by norm_num) hx0')
      (by exact_mod_cast Int.lt_zpow_succ_log_self (by norm_num) |x|)
      (le_trans ht hge)
    rw [hround, hdiv, round_even_intCast, ← hj]

lemma fp_round_int (prec : ℕ) (emin : Int) (hprec : 0 < prec) (k : Int)
    (hk : k.natAbs ≤ 2 ^ prec) (he : emin ≤ 0) :
    fp_round prec emin (k : ℚ) = (k : ℚ) := by
  have h := fp_round_dyadic prec emin hprec k 0 hk he
  simpa using h

lemma f32_round_intCast (k : Int) (hk : k.natAbs ≤ 16777216) :
    f32_round (k : ℚ) = (k : ℚ) := by
  unfold f32_round
  exact fp_round_int 24 (-126) (by norm_num) k (by norm_num; exact hk) (by norm_num)

lemma f64_round_intCast (k : Int) (hk : k.natAbs ≤ 9007199254740992) :
    f64_round (k : ℚ) = (k : ℚ) := by
  unfold f64_round
  exact fp_round_int 53 (-1022) (by norm_num) k (by norm_num; exact hk) (by norm_num)

lemma f32_round_dyadic (m t : Int) (hm : m.natAbs ≤ 16777216) (ht : -126 ≤ t) :
    f32_round ((m : ℚ) * (2:ℚ) ^ t) = (m : ℚ) * (2:ℚ) ^ t := by
  unfold f32_round
  exact fp_round_dyadic 24 (-126) (by norm_num) m t (by norm_num; exact hm) ht

lemma f64_round_dyadic (m t : Int) (hm : m.natAbs ≤ 9007199254740992) (ht : -1022 ≤ t) :
    f64_round ((m : ℚ) * (2:ℚ) ^ t) = (m : ℚ) * (2:ℚ) ^ t := by
  unfold f64_round
  exact fp_round_dyadic 53 (-1022) (by norm_num) m t (by norm_num; exact hm) ht

lemma qclamp_mem_unit (x : ℚ) : 0 ≤ qclamp x 0 1 ∧ qclamp x 0 1 ≤ 1 := by
  unfold qclamp
  constructor
  · exact le_max_left 0 _
  · exact max_le (by norm_num) (min_le_right x 1)

/-- `value_to_normalized_f32` lands in `[0, 1]` whenever `powf` maps `[0, 1]`
into itself and `log2` is strictly monotone (both hold of the real float
primitives on the domains the source uses them on). -/
lemma value_to_normalized_f32_mem_unit (ops : FloatOps)
    (hpow : ∀ x y : ℚ, 0 ≤ x → x ≤ 1 → 0 ≤ ops.powf x y ∧ ops.powf x y ≤ 1)
    (hlog : StrictMono ops.log2) (v mn mx : ℚ) (g : Gradient) :
    0 ≤ value_to_normalized_f32 ops v mn mx g ∧
      value_to_normalized_f32 ops v mn mx g ≤ 1 := by
  unfold value_to_normalized_f32
  split_ifs with h1 h2
  · norm_num
  · norm_num
  · have hv1 : mn < v := lt_of_not_le h1
    have hv2 : v < mx := lt_of_not_le h2
    have hd : (0 : ℚ) < mx - mn := by linarith
    have hu0 : 0 ≤ (v - mn) / (mx - mn) := div_nonneg (by linarith) (le_of_lt hd)
    have hu1 : (v - mn) / (mx - mn) ≤ 1 := by
      rw [div_le_one hd]
      linarith
    cases g with
    | linear => exact ⟨hu0, hu1⟩
    | power exponent => exact hpow _ _ hu0 hu1
    | exponential =>
      have l1 : ops.log2 mn < ops.log2 v := hlog hv1
      have l2 : ops.log2 v < ops.log2 mx := hlog hv2
      constructor
      · exact div_nonneg (by linarith) (by linarith)
      · rw [div_le_one (by linarith)]
        linarith

/-- Exact round trip through one of the integer-arithmetic branches of
`SuperSampleTime::from_sample_time`, for a rate factor `k = ko * 2 ^ v`
(odd part `ko`) with `k * rate = 28_224_000`, provided `N` is small enough
that the `i64` multiplication `N * k` cannot overflow and that every `f64`
operation of `to_sample_time` (the `i64 → f64` cast, the multiplication by
the rate, whose exact value is `N * 28_224_000 = (N * 55125) * 2 ^ 9`, and
the division by `28_224_000`) is exact. -/
lemma roundtrip_aux (N k ko : Int) (v : ℕ) (rq : ℚ)
    (hk : k = ko * 2 ^ v) (hko : 0 < ko) (hko2 : ko ≤ 55125) (hv : v ≤ 8)
    (hkr : (k : ℚ) * rq = 28224000)
    (hN : N.natAbs ≤ 163395904847) :
    SuperSampleTime.to_sample_time (i64_wrap (N * k)) rq = N := by
  subst hk
  have hkoabs : ko.natAbs ≤ 55125 := by omega
  have hb0 : (N * ko).natAbs ≤ 9007199254690875 := by
    calc (N * ko).natAbs = N.natAbs * ko.natAbs := Int.natAbs_mul N ko
      _ ≤ 163395904847 * 55125 := Nat.mul_le_mul hN hkoabs
      _ = 9007199254690875 := by norm_num
  have hb1 : (N * (ko * 2 ^ v)).natAbs ≤ 2305843009200864000 := by
    calc (N * (ko * 2 ^ v)).natAbs
        = N.natAbs * (ko.natAbs * 2 ^ v) := by
          rw [Int.natAbs_mul, Int.natAbs_mul, Int.natAbs_pow]
          rfl
      _ ≤ 163395904847 * (55125 * 2 ^ 8) := by
          exact Nat.mul_le_mul hN
            (Nat.mul_le_mul hkoabs (Nat.pow_le_pow_right (by norm_num) hv))
      _ = 2305843009200864000 := by norm_num
  rw [i64_wrap_eq_self (by omega) (by omega)]
  unfold SuperSampleTime.to_sample_time as_f64
  have hkr2 : ((ko : ℚ) * 2 ^ v) * rq = 28224000 := by
    push_cast at hkr
    exact hkr
  have hcast : f64_round ((N * (ko * 2 ^ v) : Int) : ℚ) = ((N * (ko * 2 ^ v) : Int) : ℚ) := by
    have hdec : ((N * (ko * 2 ^ v) : Int) : ℚ) = ((N * ko : Int) : ℚ) * (2:ℚ) ^ ((v : ℕ) : Int) := by
      push_cast
      rw [zpow_natCast]
      ring
    rw [hdec, f64_round_dyadic (N * ko) v (by omega) (by omega), ← hdec]
  have hprodval : ((N * (ko * 2 ^ v) : Int) : ℚ) * rq = ((N * 55125 : Int) : ℚ) * (2:ℚ) ^ (9 : Int) := by
    push_cast
    rw [show ((2:ℚ) ^ (9 : Int)) = 512 from by norm_num]
    linear_combination (N : ℚ) * hkr2
  have hb2 : (N * 55125).natAbs ≤ 9007199254690875 := by
    calc (N * 55125).natAbs = N.natAbs * 55125 := by
          rw [Int.natAbs_mul]
          rfl
      _ ≤ 163395904847 * 55125 := Nat.mul_le_mul_right _ hN
      _ = 9007199254690875 := by norm_num
  have hdivval : ((N * 55125 : Int) : ℚ) * (2:ℚ) ^ (9 : Int) / 28224000 = (N : ℚ) := by
    push_cast
    rw [show ((2:ℚ) ^ (9 : Int)) = 512 from by norm_num,
      div_eq_iff (by norm_num : (28224000:ℚ) ≠ 0)]
    ring
  rw [hcast, hprodval, f64_round_dyadic (N * 55125) 9 (by omega) (by norm_num), hdivval,
    f64_round_intCast N (by omega), rust_round_intCast,
    i64_sat_eq_self (by omega) (by omega)]

/-! ## Claim theorems for the time model -/

/-- Claim C2 (amended): for each of the eight supported sample rates and for
every `i64` value `N` whose magnitude is at most `163_395_904_847`
(`⌊2^53 / 55125⌋`, which guarantees both that the `i64` multiplication
`N * (28_224_000 / rate)` inside `to_super_sample` cannot overflow and that
every `f64` operation inside `to_sample_time` — the `i64 → f64` cast, the
multiplication by the rate, whose exact result `N * 28_224_000` has odd part
`N * 55125`, and the division by `28_224_000` — is exact),
`SampleTime(N).to_super_sample(rate).to_sample_time(rate)` equals
`SampleTime(N)` exactly.  For larger `N` either the `f64` arithmetic rounds
or the `i64` multiplication overflows, and the round trip can fail, so the
claim does not hold for every `i64` value. -/
theorem sampleTime_to_super_sample_round_trip (N : Int) (sr : ℚ)
    (hsr : sr = 22050 ∨ sr = 24000 ∨ sr = 44100 ∨ sr = 48000 ∨ sr = 88200 ∨
      sr = 96000 ∨ sr = 176400 ∨ sr = 192000)
    (hN : N.natAbs ≤ 163395904847) :
    SuperSampleTime.to_sample_time (SampleTime.to_super_sample N sr) sr = N := by
  rcases hsr with rfl | rfl | rfl | rfl | rfl | rfl | rfl | rfl
  · norm_num [SampleTime.to_super_sample, SuperSampleTime.from_sample_time, f64_to_usize]
    exact roundtrip_aux N 1280 5 8 22050 (by norm_num) (by norm_num) (by norm_num)
      (by norm_num) (by norm_num) hN
  · norm_num [SampleTime.to_super_sample, SuperSampleTime.from_sample_time, f64_to_usize]
    exact roundtrip_aux N 1176 147 3 24000 (by norm_num) (by norm_num) (by norm_num)
      (by norm_num) (by norm_num) hN
  · norm_num [SampleTime.to_super_sample, SuperSampleTime.from_sample_time, f64_to_usize]
    exact roundtrip_aux N 640 5 7 44100 (by norm_num) (by norm_num) (by norm_num)
      (by norm_num) (by norm_num) hN
  · norm_num [SampleTime.to_super_sample, SuperSampleTime.from_sample_time, f64_to_usize]
    exact roundtrip_aux N 588 147 2 48000 (by norm_num) (by norm_num) (by norm_num)
      (by norm_num) (by norm_num) hN
  · norm_num [SampleTime.to_super_sample, SuperSampleTime.from_sample_time, f64_to_usize]
    exact roundtrip_aux N 320 5 6 88200 (by norm_num) (by norm_num) (by norm_num)
      (by norm_num) (by norm_num) hN
  · norm_num [SampleTime.to_super_sample, SuperSampleTime.from_sample_time, f64_to_usize]
    exact roundtrip_aux N 294 147 1 96000 (by norm_num) (by norm_num) (by norm_num)
      (by norm_num) (by norm_num) hN
  · norm_num [SampleTime.to_super_sample, SuperSampleTime.from_sample_time, f64_to_usize]
    exact roundtrip_aux N 160 5 5 176400 (by norm_num) (by norm_num) (by norm_num)
      (by norm_num) (by norm_num) hN
  · norm_num [SampleTime.to_super_sample, SuperSampleTime.from_sample_time, f64_to_usize]
    exact roundtrip_aux N 147 147 0 192000 (by norm_num) (by norm_num) (by norm_num)
      (by norm_num) (by norm_num) hN

/-- Claim C2 witness: the round trip is exact at the concrete input
`N = 123456789`, rate 48000. -/
theorem sampleTime_to_super_sample_round_trip_witness :
    SuperSampleTime.to_sample_time (SampleTime.to_super_sample 123456789 48000) 48000 =
      123456789 :=
  sampleTime_to_super_sample_round_trip 123456789 48000 (by norm_num) (by norm_num)

/-- Claim C2 counterexample: the round trip is not exact for every `i64`
value `N`.  At rate 44100 and `N = 2^55`, the `i64` multiplication
`N * 640` inside `to_super_sample` leaves the `i64` range (it wraps to
`2^62` in release builds; debug builds panic), and the round trip returns
`7205759403792794 ≠ 2^55` (the division `2^62 / 640 = 2^55 / 5` is not an
integer and the `f64` value rounds to the nearest sample). -/
theorem sampleTime_to_super_sample_round_trip_cex :
    SuperSampleTime.to_sample_time (SampleTime.to_super_sample (2 ^ 55) 44100) 44100 ≠
      2 ^ 55 := by
  have hsuper : SampleTime.to_super_sample (2 ^ 55) 44100 = 4611686018427387904 := by
    have hkey : f64_to_usize (44100 : ℚ) = 44100 := by
      norm_num [f64_to_usize]
    simp only [SampleTime.to_super_sample, SuperSampleTime.from_sample_time]
    rw [hkey, if_pos rfl]
    decide
  rw [hsuper]
  have hcast : as_f64 4611686018427387904 = ((1 : ℚ)) * (2:ℚ) ^ (62 : Int) := by
    unfold as_f64
    have hdec : ((4611686018427387904 : Int) : ℚ) = ((1 : Int) : ℚ) * (2:ℚ) ^ (62 : Int) := by
      norm_num
    rw [hdec, f64_round_dyadic 1 62 (by norm_num) (by norm_num)]
    norm_num
  have hprod : f64_round (((1 : ℚ)) * (2:ℚ) ^ (62 : Int) * 44100) =
      ((11025 : Int) : ℚ) * (2:ℚ) ^ (64 : Int) := by
    have hdec : ((1 : ℚ)) * (2:ℚ) ^ (62 : Int) * 44100 = ((11025 : Int) : ℚ) * (2:ℚ) ^ (64 : Int) := by
      norm_num
    rw [hdec, f64_round_dyadic 11025 64 (by norm_num) (by norm_num)]
  have hdivv : ((11025 : Int) : ℚ) * (2:ℚ) ^ (64 : Int) / 28224000 =
      (36028797018963968 : ℚ) / 5 := by
    norm_num
  have hdivr : f64_round ((36028797018963968 : ℚ) / 5) = 7205759403792794 := by
    unfold f64_round
    rw [fp_round_eq_of 53 (-1022) _ 52 (by norm_num)
      (by rw [abs_of_pos (by norm_num : (0:ℚ) < 36028797018963968 / 5)]; norm_num)
      (by rw [abs_of_pos (by norm_num : (0:ℚ) < 36028797018963968 / 5)]; norm_num)
      (by norm_num)]
    norm_num [round_even]
  unfold SuperSampleTime.to_sample_time
  rw [hcast, hprod, hdivv, hdivr]
  norm_num [rust_round, i64_sat]

/-- Claim C4 (code bug): `MusicalTime::from_64th_beats` multiplies by
`28_224_000 / 32` instead of `28_224_000 / 64`, so `from_64th_beats(n)`
yields `n * 882_000` super-beat ticks (the value of `from_32nd_beats(n)`),
not the `n * 441_000` that one sixty-fourth beat per unit requires; in
particular `from_64th_beats(64)` equals `from_beats(2)`, not `from_beats(1)`.
This contradicts the function's own doc comment ("units of 1 / 64 beats"). -/
theorem musicalTime_from_64th_beats_failing :
    MusicalTime.from_64th_beats 1 = 882000 ∧
    MusicalTime.from_64th_beats 1 ≠ 441000 ∧
    MusicalTime.from_64th_beats 1 = MusicalTime.from_32nd_beats 1 ∧
    MusicalTime.from_64th_beats 64 = MusicalTime.from_beats 2 ∧
    MusicalTime.from_64th_beats 64 ≠ MusicalTime.from_beats 1 := by
  refine ⟨by decide, by decide, by decide, by decide, by decide⟩

/-- Claim C10: subtraction of the unsigned duration types `Frames` and
`SuperFrames` is only defined when the subtrahend is at most the minuend, in
which case the payload is the exact (integer) difference; subtracting a
larger duration from a smaller one underflows the unsigned representation
(modelled as `none`; a panic in debug builds). -/
theorem frames_sub_spec (a b : Nat) :
    (b ≤ a →
      Frames.sub a b = some (a - b) ∧ SuperFrames.sub a b = some (a - b) ∧
      ((a - b : Nat) : Int) = (a : Int) - (b : Int)) ∧
    (a < b → Frames.sub a b = none ∧ SuperFrames.sub a b = none) := by
  constructor
  · intro h
    refine ⟨?_, ?_, ?_⟩
    · simp [Frames.sub, h]
    · simp [SuperFrames.sub, h]
    · omega
  · intro h
    constructor
    · simp [Frames.sub]
      omega
    · simp [SuperFrames.sub]
      omega

/-- Claim C10 witness: concrete instances of both halves of the
characterization. -/
theorem frames_sub_spec_witness :
    Frames.sub 5 3 = some 2 ∧ Frames.sub 3 5 = none := by
  constructor
  · exact ((frames_sub_spec 5 3).1 (by decide)).1
  · exact ((frames_sub_spec 3 5).2 (by decide)).1

/-! ## Claim theorems for the parameter model -/

/-- Claim C1 (code bug): `ParamI32::set_normalized`,
`ParamI32::normalized_to_value` and `ParamI32Handle::set_normalized` add
`self.max as f32` as the affine offset where the claim (and the analogous
float parameters, and `ParamI32::from_normalized` itself) add the minimum
bound.  With `min = 0`, `max = 10`: normalized `0.0` yields value `10`
(= `max`), not `round(0 * 10 + 0) = 0` (= `min`); `normalized_to_value(1.0)`
even returns `20`, outside `[min, max]`; and with `min = 2`
`normalized_to_value(0.0)` returns `10`, not `2`. -/
theorem paramI32_set_normalized_failing :
    ((ParamI32.from_value 0 0 10).set_normalized 0).shared = 10 ∧
    (ParamI32.from_value 0 0 10).normalized_to_value 0 = 10 ∧
    (ParamI32.from_value 0 0 10).normalized_to_value 1 = 20 ∧
    (ParamI32Handle.set_normalized (ParamI32.from_value 0 0 10) 0).shared = 10 ∧
    (ParamI32.from_value 2 2 10).normalized_to_value 0 = 10 := by
  have a0 : as_f32 0 = 0 := by
    unfold as_f32
    exact_mod_cast f32_round_intCast 0 (by norm_num)
  have a2 : as_f32 2 = 2 := by
    unfold as_f32
    exact_mod_cast f32_round_intCast 2 (by norm_num)
  have a10 : as_f32 10 = 10 := by
    unfold as_f32
    exact_mod_cast f32_round_intCast 10 (by norm_num)
  have f0 : f32_round (0 : ℚ) = 0 := by
    unfold f32_round
    exact fp_round_zero 24 (-126)
  have f8 : f32_round (8 : ℚ) = 8 := by
    exact_mod_cast f32_round_intCast 8 (by norm_num)
  have f10 : f32_round (10 : ℚ) = 10 := by
    exact_mod_cast f32_round_intCast 10 (by norm_num)
  have f20 : f32_round (20 : ℚ) = 20 := by
    exact_mod_cast f32_round_intCast 20 (by norm_num)
  refine ⟨?_, ?_, ?_, ?_, ?_⟩ <;>
    norm_num [ParamI32.from_value, ParamI32.set_normalized, ParamI32.set_value,
      ParamI32.normalized_to_value, ParamI32Handle.set_normalized,
      qclamp, iclamp, i32_sat, rust_round, a0, a2, a10, f0, f8, f10, f20]

/-- Claim C3: calling `ParamF32::set_value(v)` and then immediately calling
`set_value(v)` again leaves the parameter's entire state unchanged on the
second call — cached normalized value, shared cell, DSP value, and the full
smoother state (target, status flag, coefficients and ramp position), so no
ramp is restarted.  Stated as idempotency of `set_value` for every starting
state, bounds, gradient, unit and value. -/
theorem paramF32_set_value_idempotent (ops : FloatOps) (s : ParamF32) (v : ℚ) :
    ParamF32.set_value ops (ParamF32.set_value ops s v) v = ParamF32.set_value ops s v := by
  by_cases h : s.value = v
  · simp only [ParamF32.set_value, if_pos h]
  · simp only [ParamF32.set_value, if_neg h]
    split_ifs with h2
    · rfl
    · rfl

/-- Claim C5: if the cached DSP value of a `ParamF32` equals `unit_to_dsp`
of `normalized_to_value` of its cached normalized value (with its own
`min`, `max` and `gradient`), then immediately after any mutating call —
`set_value`, `set_normalized`, `reset_from_value`, `reset_from_normalized`
or `smoothed` — the same consistency holds again, for every interpretation
of the abstract float primitives. -/
theorem paramF32_value_consistent (ops : FloatOps) (s : ParamF32)
    (hs : paramF32_consistent ops s) :
    (∀ v, paramF32_consistent ops (ParamF32.set_value ops s v)) ∧
    (∀ n, paramF32_consistent ops (ParamF32.set_normalized ops s n)) ∧
    (∀ v, paramF32_consistent ops (ParamF32.reset_from_value ops s v)) ∧
    (∀ n, paramF32_consistent ops (ParamF32.reset_from_normalized ops s n)) ∧
    (∀ frames, paramF32_consistent ops (ParamF32.smoothed_step ops s frames)) := by
  refine ⟨?_, ?_, ?_, ?_, ?_⟩
  · intro v
    unfold ParamF32.set_value
    split_ifs with h
    · exact hs
    · cases hu : s.unit <;>
        simp [paramF32_consistent, Unit.unit_to_dsp_f32, hu]
  · intro n
    unfold ParamF32.set_normalized
    split_ifs with h
    · exact hs
    · cases hu : s.unit <;>
        simp [paramF32_consistent, Unit.unit_to_dsp_f32, hu]
  · intro v
    unfold ParamF32.reset_from_value
    cases hu : s.unit <;>
      simp [paramF32_consistent, Unit.unit_to_dsp_f32, hu]
  · intro n
    unfold ParamF32.reset_from_normalized
    cases hu : s.unit <;>
      simp [paramF32_consistent, Unit.unit_to_dsp_f32, hu]
  · intro frames
    by_cases h : s.normalized = s.shared_normalized
    · simp only [ParamF32.smoothed_step, if_pos h]
      exact hs
    · simp only [ParamF32.smoothed_step, if_neg h]
      cases hu : s.unit <;>
        simp [paramF32_consistent, Unit.unit_to_dsp_f32, hu]

/-- Claim C5 witness: the invariant holds for a freshly constructed concrete
parameter and is preserved by a concrete `set_value` call. -/
theorem paramF32_value_consistent_witness :
    paramF32_consistent idOps
      (ParamF32.set_value idOps
        (ParamF32.from_value idOps (1 / 2) 0 1 .linear .generic (1 / 200) 44100) (3 / 4)) :=
  (paramF32_value_consistent idOps
    (ParamF32.from_value idOps (1 / 2) 0 1 .linear .generic (1 / 200) 44100) rfl).1 (3 / 4)

/-- Claim C6 (amended): `ParamI32::from_normalized(n, min, max)` with
`n ∈ [0, 1]` and `min < max` initializes the shared value to
`round(n * (max - min) + min)` (nearest-integer rounding) clamped to
`[min, max]` — this constructor, unlike `set_normalized`, uses the minimum
bound as the affine offset — provided the `f32` arithmetic of the expression
is exact: the casts of `min` and `max`, the bound subtraction, the
multiplication by `n` and the final addition must each be representable
(true e.g. for all `f32`-exact bounds of magnitude at most `2^23` with `n`
a small dyadic, and in particular for the spec's `(0.5, 0, 10)` instance).
For bounds that are not `f32`-representable the cast rounds and the claimed
formula fails (see the counterexample). -/
theorem paramI32_from_normalized_rounds (n : ℚ) (mn mx : Int)
    (h0 : 0 ≤ n) (h1 : n ≤ 1) (hlt : mn < mx)
    (hlo : -(2 ^ 31) ≤ mn) (hhi : mx ≤ 2 ^ 31 - 1)
    (hfmn : f32_round (mn : ℚ) = (mn : ℚ))
    (hfmx : f32_round (mx : ℚ) = (mx : ℚ))
    (hfrange : f32_round ((mx : ℚ) - (mn : ℚ)) = (mx : ℚ) - (mn : ℚ))
    (hfprod : f32_round (n * ((mx : ℚ) - (mn : ℚ))) = n * ((mx : ℚ) - (mn : ℚ)))
    (hfsum : f32_round (n * ((mx : ℚ) - (mn : ℚ)) + (mn : ℚ)) =
      n * ((mx : ℚ) - (mn : ℚ)) + (mn : ℚ)) :
    (ParamI32.from_normalized n mn mx).shared =
      iclamp (rust_round (n * ((mx : ℚ) - (mn : ℚ)) + (mn : ℚ))) mn mx := by
  unfold ParamI32.from_normalized ParamI32.from_value as_f32
  simp only [qclamp_eq_self h0 h1, hfmn, hfmx, hfrange, hfprod, hfsum]
  unfold iclamp i32_sat
  omega

/-- Claim C6 witness: `ParamI32::from_normalized(0.5, 0, 10)` yields value 5
(every `f32` operation is exact at these inputs). -/
theorem paramI32_from_normalized_rounds_witness :
    (ParamI32.from_normalized (1 / 2) 0 10).shared = 5 := by
  have f10 : f32_round ((10 : Int) : ℚ) = ((10 : Int) : ℚ) :=
    f32_round_intCast 10 (by norm_num)
  have f5 : f32_round (5 : ℚ) = (5 : ℚ) := by
    exact_mod_cast f32_round_intCast 5 (by norm_num)
  have h := paramI32_from_normalized_rounds (1 / 2) 0 10 (by norm_num) (by norm_num)
    (by norm_num) (by norm_num) (by norm_num)
    (by exact_mod_cast f32_round_intCast 0 (by norm_num))
    (by exact_mod_cast f10)
    (by norm_num; exact_mod_cast f10)
    (by norm_num; exact f5)
    (by norm_num; exact f5)
  rw [h]
  norm_num [iclamp, rust_round]

/-- Claim C6 counterexample: the unrestricted formula fails once a bound is
not `f32`-representable.  At `from_normalized(1.0, 0, 100000001)` the cast
`100000001 as f32` rounds to `100000000`, so the program stores `100000000`,
while the claimed `round(n * (max - min) + min)` (clamped) is `100000001`. -/
theorem paramI32_from_normalized_cex :
    (ParamI32.from_normalized 1 0 100000001).shared = 100000000 ∧
    iclamp (rust_round ((1 : ℚ) * ((100000001 : ℚ) - (0 : ℚ)) + (0 : ℚ))) 0 100000001 =
      100000001 := by
  constructor
  · have e1 : f32_round (100000001 : ℚ) = 100000000 := by
      unfold f32_round
      rw [fp_round_eq_of 24 (-126) _ 26 (by norm_num)
        (by rw [abs_of_pos (by norm_num : (0:ℚ) < 100000001)]; norm_num)
        (by rw [abs_of_pos (by norm_num : (0:ℚ) < 100000001)]; norm_num)
        (by norm_num)]
      norm_num [round_even]
    have e2 : f32_round (100000000 : ℚ) = 100000000 := by
      have hdec : (100000000 : ℚ) = ((390625 : Int) : ℚ) * (2:ℚ) ^ (8 : Int) := by
        norm_num
      rw [hdec, f32_round_dyadic 390625 8 (by norm_num) (by norm_num)]
    have e0 : f32_round (0 : ℚ) = 0 := by
      unfold f32_round
      exact fp_round_zero 24 (-126)
    norm_num [ParamI32.from_normalized, ParamI32.from_value, as_f32, qclamp,
      e0, e1, e2, i32_sat, rust_round, iclamp]
  · norm_num [iclamp, rust_round]

/-- Claim C7: for every gradient and `min < max`, `value_to_normalized`
(both the `f32` and the `f64` version) returns exactly `0.0` for every value
`≤ min` and exactly `1.0` for every value `≥ max`, saturating instead of
erroring, for every interpretation of the abstract float primitives. -/
theorem value_to_normalized_saturates (ops : FloatOps) (v mn mx : ℚ) (g : Gradient)
    (hlt : mn < mx) :
    (v ≤ mn → value_to_normalized_f32 ops v mn mx g = 0 ∧
      value_to_normalized_f64 ops v mn mx g = 0) ∧
    (mx ≤ v → value_to_normalized_f32 ops v mn mx g = 1 ∧
      value_to_normalized_f64 ops v mn mx g = 1) := by
  constructor
  · intro h
    constructor <;> simp [value_to_normalized_f32, value_to_normalized_f64, h]
  · intro h
    have hnot : ¬ v ≤ mn := by linarith
    constructor <;> simp [value_to_normalized_f32, value_to_normalized_f64, h, hnot]

/-- Claim C7 witness: saturation at concrete out-of-range inputs. -/
theorem value_to_normalized_saturates_witness :
    value_to_normalized_f32 idOps (-5) 0 1 .linear = 0 ∧
    value_to_normalized_f64 idOps 7 0 1 .exponential = 1 := by
  constructor
  · exact ((value_to_normalized_saturates idOps (-5) 0 1 .linear (by norm_num)).1
      (by norm_num)).1
  · exact ((value_to_normalized_saturates idOps 7 0 1 .exponential (by norm_num)).2
      (by norm_num)).2

/-- Claim C8: for the `Exponential` gradient with `0 < min < max`,
`normalized_to_value` (both widths) returns exactly `min` at normalized
`0.0` and exactly `max` at normalized `1.0`, via the dedicated endpoint
early-returns, independent of the `log2`/`powf` primitives. -/
theorem normalized_to_value_exponential_endpoints (ops : FloatOps) (mn mx : ℚ)
    (hpos : 0 < mn) (hlt : mn < mx) :
    normalized_to_value_f32 ops 0 mn mx .exponential = mn ∧
    normalized_to_value_f32 ops 1 mn mx .exponential = mx ∧
    normalized_to_value_f64 ops 0 mn mx .exponential = mn ∧
    normalized_to_value_f64 ops 1 mn mx .exponential = mx := by
  refine ⟨?_, ?_, ?_, ?_⟩ <;>
    norm_num [normalized_to_value_f32, normalized_to_value_f64, qclamp]

/-- Claim C8 witness: exact endpoints at the concrete range `[1, 2]`. -/
theorem normalized_to_value_exponential_endpoints_witness :
    normalized_to_value_f32 idOps 0 1 2 .exponential = 1 ∧
    normalized_to_value_f64 idOps 1 1 2 .exponential = 2 := by
  have h := normalized_to_value_exponential_endpoints idOps 1 2 (by norm_num) (by norm_num)
  exact ⟨h.1, h.2.2.2⟩

/-- Claim C9: assuming only the range property of `powf` on `[0, 1]` and the
strict monotonicity of `log2` (both true of the real float primitives on the
domains the source uses them on), every write to the shared normalized cell
— by either constructor, by the parameter's `set_value` / `set_normalized` /
`reset_from_value` / `reset_from_normalized`, or by a handle's `set_value` /
`set_normalized` — stores a value in `[0, 1]` (explicitly clamped, or the
image of `value_to_normalized`); `smoothed` never writes the cell; and
consequently `ParamF32Handle::normalized()` always returns a value in
`[0, 1]`. -/
theorem paramF32_shared_normalized_in_unit (ops : FloatOps)
    (hpow : ∀ x y : ℚ, 0 ≤ x → x ≤ 1 → 0 ≤ ops.powf x y ∧ ops.powf x y ≤ 1)
    (hlog : StrictMono ops.log2) :
    (∀ v mn mx g u ss sr, shared_in_unit (ParamF32.from_value ops v mn mx g u ss sr)) ∧
    (∀ n mn mx g u ss sr, shared_in_unit (ParamF32.from_normalized ops n mn mx g u ss sr)) ∧
    (∀ s v, shared_in_unit s → shared_in_unit (ParamF32.set_value ops s v)) ∧
    (∀ s n, shared_in_unit s → shared_in_unit (ParamF32.set_normalized ops s n)) ∧
    (∀ s v, shared_in_unit (ParamF32.reset_from_value ops s v)) ∧
    (∀ s n, shared_in_unit (ParamF32.reset_from_normalized ops s n)) ∧
    (∀ s v, shared_in_unit (ParamF32Handle.set_value ops s v)) ∧
    (∀ s n, shared_in_unit (ParamF32Handle.set_normalized s n)) ∧
    (∀ s frames, shared_in_unit s → shared_in_unit (ParamF32.smoothed_step ops s frames)) ∧
    (∀ s, shared_in_unit s →
      0 ≤ ParamF32Handle.normalized s ∧ ParamF32Handle.normalized s ≤ 1) := by
  refine ⟨?_, ?_, ?_, ?_, ?_, ?_, ?_, ?_, ?_, ?_⟩
  · intro v mn mx g u ss sr
    exact value_to_normalized_f32_mem_unit ops hpow hlog v mn mx g
  · intro n mn mx g u ss sr
    exact qclamp_mem_unit n
  · intro s v hsh
    unfold ParamF32.set_value
    split_ifs with h
    · exact hsh
    · exact value_to_normalized_f32_mem_unit ops hpow hlog v s.min s.max s.gradient
  · intro s n hsh
    unfold ParamF32.set_normalized
    split_ifs with h
    · exact hsh
    · exact qclamp_mem_unit n
  · intro s v
    exact value_to_normalized_f32_mem_unit ops hpow hlog v s.min s.max s.gradient
  · intro s n
    exact qclamp_mem_unit n
  · intro s v
    exact qclamp_mem_unit _
  · intro s n
    exact qclamp_mem_unit n
  · intro s frames hsh
    by_cases h : s.normalized = s.shared_normalized
    · simp only [ParamF32.smoothed_step, if_pos h]
      exact hsh
    · simp only [ParamF32.smoothed_step, if_neg h]
      exact hsh
  · intro s hsh
    exact hsh

/-- Claim C9 witness: the invariant holds for a freshly constructed concrete
parameter and is preserved by a concrete out-of-range `set_value(5)` on a
`[0, 1]` parameter, instantiating the abstract primitives with `idOps`. -/
theorem paramF32_shared_normalized_in_unit_witness :
    shared_in_unit
      (ParamF32.set_value idOps
        (ParamF32.from_value idOps (1 / 4) 0 1 .linear .generic (1 / 200) 44100) 5) := by
  have hpow : ∀ x y : ℚ, 0 ≤ x → x ≤ 1 → 0 ≤ idOps.powf x y ∧ idOps.powf x y ≤ 1 := by
    intro x y h1 h2
    exact ⟨h1, h2⟩
  have h := paramF32_shared_normalized_in_unit idOps hpow strictMono_id
  exact h.2.2.1 _ 5 (h.1 (1 / 4) 0 1 .linear .generic (1 / 200) 44100)

end RustyDawCore
